import Mathlib

/-!
Verification development for the trace memoization core declared in
`src/runtime/legion/legion_trace.h`. Functions whose bodies appear inline in
that header are translated directly; functions that are only declared there
are modelled from the specification, as indicated in their doc comments.
-/

set_option autoImplicit false

namespace LegionTraceModel

/-- Modelled from the spec glossary: the dependence taxonomy
{TRUE, ANTI, ATOMIC, SIMULTANEOUS, NO}. The defining header (`legion_types.h`)
is not among the sources. -/
inductive DependenceType where
  | NO_DEPENDENCE
  | TRUE_DEPENDENCE
  | ANTI_DEPENDENCE
  | ATOMIC_DEPENDENCE
  | SIMULTANEOUS_DEPENDENCE
  deriving DecidableEq, Repr

/-- Modelled from the spec (external interfaces): `FieldMask` is a
set-of-fields with union, intersection, difference and subset testing.
Fields are identified by natural numbers. -/
abbrev FieldMask := Finset ℕ

/-- `LegionTrace::DependenceRecord` (legion_trace.h, lines 33-63): the record of
one dependence of a later operation on an earlier operation of the trace. -/
structure DependenceRecord where
  operation_idx : Int
  prev_idx : Int
  next_idx : Int
  validates : Bool
  dtype : DependenceType
  dependent_mask : FieldMask
  deriving DecidableEq

/-- The single-argument constructor `DependenceRecord(int idx)`
(legion_trace.h, lines 35-37): a whole-operation record with
`prev_idx = -1`, `next_idx = -1`, `validates = false`,
`dtype = TRUE_DEPENDENCE` and a default-constructed (empty) mask. -/
def DependenceRecord.ofIdx (idx : Int) : DependenceRecord :=
  { operation_idx := idx
    prev_idx := -1
    next_idx := -1
    validates := false
    dtype := DependenceType.TRUE_DEPENDENCE
    dependent_mask := ∅ }

/-- `DependenceRecord::merge` (legion_trace.h, lines 45-55). The C++ method
mutates the receiver and returns a success flag; here it returns the flag
paired with the updated record. On any disagreement among the first five
fields it returns `false` and leaves the record unchanged; otherwise it
unions the argument's mask into the receiver's and returns `true`. -/
def DependenceRecord.merge (a b : DependenceRecord) : Bool × DependenceRecord :=
  if (a.operation_idx ≠ b.operation_idx) ∨
     (a.prev_idx ≠ b.prev_idx) ∨
     (a.next_idx ≠ b.next_idx) ∨
     (a.validates ≠ b.validates) ∨
     (a.dtype ≠ b.dtype)
  then (false, a)
  else (true, { a with dependent_mask := a.dependent_mask ∪ b.dependent_mask })

/-- Two records are mergeable when `merge` would succeed. -/
def DependenceRecord.mergeable (a b : DependenceRecord) : Bool :=
  (a.merge b).1

/-- Modelled from the spec: `DynamicTrace::insert_dependence` (declared at
legion_trace.h, line 263; its body is not among the sources) performs the
merge against the last element of the operation's record list if possible,
else appends the record. -/
def insert_dependence : List DependenceRecord → DependenceRecord → List DependenceRecord
  | [], r => [r]
  | [d], r =>
      let m := d.merge r
      if m.1 then [m.2] else [d, r]
  | d :: e :: rest, r => d :: insert_dependence (e :: rest) r

/-- No two records anywhere in the list are mergeable with each other. -/
def no_mergeable_pair : List DependenceRecord → Bool
  | [] => true
  | a :: rest => rest.all (fun b => !(a.mergeable b)) && no_mergeable_pair rest

/-- No two consecutive records of the list are mergeable. -/
def no_adjacent_mergeable : List DependenceRecord → Bool
  | [] => true
  | [_] => true
  | a :: b :: rest => !(a.mergeable b) && no_adjacent_mergeable (b :: rest)

/-- One stored condition of a `TraceViewSet`: an instance view paired with an
equivalence set and the field mask recorded for that pair. Views and
equivalence sets are identity-comparable handles (spec, external interfaces),
modelled as natural numbers. -/
structure ViewEntry where
  view : ℕ
  eq : ℕ
  mask : FieldMask
  deriving DecidableEq

/-- `TraceViewSet` (legion_trace.h, lines 505-532): a set of
`(InstanceView, EquivalenceSet, FieldMask)` entries. The C++ `conditions`
member is a map from views to field-mask sets of equivalence sets; here the
entries are kept as a list and the effective mask of a `(view, eq)` key is
the union of its entries' masks. -/
structure TraceViewSet where
  conditions : List ViewEntry
  deriving DecidableEq

/-- The effective mask stored for a `(view, eq)` key: the union of the masks
of all entries with that key. -/
def lookupMask : List ViewEntry → ℕ → ℕ → FieldMask
  | [], _, _ => ∅
  | ent :: rest, v, e =>
      (if ent.view = v ∧ ent.eq = e then ent.mask else ∅) ∪ lookupMask rest v e

/-- Modelled from the spec: `TraceViewSet::dominates` (declared at
legion_trace.h, lines 517-519; its body is not among the sources) returns true
iff every field bit of the given mask is covered by the entries recorded for
the same view and equivalence set. -/
def TraceViewSet.dominates (s : TraceViewSet) (v e : ℕ) (m : FieldMask) : Bool :=
  decide (m ⊆ lookupMask s.conditions v e)

/-- Modelled from the spec: `TraceViewSet::subsumed_by` (declared at
legion_trace.h, line 520; its body is not among the sources) holds when, for
every entry `(v, e, m)` of this set, the other set dominates `(v, e, m)`. -/
def TraceViewSet.subsumed_by (s other : TraceViewSet) : Bool :=
  s.conditions.all (fun ent => other.dominates ent.view ent.eq ent.mask)

/-- Modelled from the spec: `TraceViewSet::has_refinements` (declared at
legion_trace.h, line 521; its body is not among the sources) is true iff some
entry's equivalence set is a strict refinement of another entry's on
overlapping fields. The strict-refinement relation between equivalence sets
belongs to the external region-tree system and is taken as a parameter. -/
def TraceViewSet.has_refinements (refines : ℕ → ℕ → Bool)
    (s : TraceViewSet) : Bool :=
  s.conditions.any (fun e1 => s.conditions.any (fun e2 =>
    refines e1.eq e2.eq && decide (e1.mask ∩ e2.mask ≠ ∅)))

/-- `PhysicalTemplate` (legion_trace.h, lines 561-826), restricted to the
state the claims are about: the `recording` and `replayable` flags and the
pre/post condition sets and reduction view sets (lines 775-776, 813,
818-820). -/
structure PhysicalTemplate where
  recording : Bool
  replayable : Bool
  pre : TraceViewSet
  post : TraceViewSet
  pre_reductions : TraceViewSet
  post_reductions : TraceViewSet
  consumed_reductions : TraceViewSet
  deriving DecidableEq

/-- `PhysicalTemplate::is_recording` (legion_trace.h, line 650). -/
def PhysicalTemplate.is_recording (t : PhysicalTemplate) : Bool :=
  t.recording

/-- `PhysicalTemplate::is_replaying` (legion_trace.h, line 651): returns
`!recording`. -/
def PhysicalTemplate.is_replaying (t : PhysicalTemplate) : Bool :=
  !t.recording

/-- `PhysicalTemplate::is_replayable` (legion_trace.h, line 652). -/
def PhysicalTemplate.is_replayable (t : PhysicalTemplate) : Bool :=
  t.replayable

/-- Modelled from the spec: `PhysicalTemplate::check_replayable` (declared at
legion_trace.h, line 621; its body is not among the sources). The template is
replayable iff `post` subsumes `pre`, neither `pre` nor `post` has
equivalence-set refinements, and `pre_reductions` is subsumed by
`consumed_reductions`. -/
def PhysicalTemplate.check_replayable (refines : ℕ → ℕ → Bool)
    (t : PhysicalTemplate) : Bool :=
  t.pre.subsumed_by t.post &&
  !(t.pre.has_refinements refines) &&
  !(t.post.has_refinements refines) &&
  t.pre_reductions.subsumed_by t.consumed_reductions

/-- Modelled from the spec: `PhysicalTemplate::finalize` (declared at
legion_trace.h, line 619; its body is not among the sources) ends recording
and marks the template replayable exactly when no blocking call was observed
and `check_replayable` succeeds; a blocking call always forces
`replayable = false`. -/
def PhysicalTemplate.finalize (refines : ℕ → ℕ → Bool)
    (t : PhysicalTemplate) (has_blocking_call : Bool) : PhysicalTemplate :=
  { t with recording := false
           replayable := !has_blocking_call && t.check_replayable refines }

/-- `PhysicalTrace` (legion_trace.h, lines 462-498), restricted to the state
the claims are about: the `templates` vector and the `nonreplayable_count`
counter (lines 493-494). -/
structure PhysicalTrace where
  templates : List PhysicalTemplate
  nonreplayable_count : ℕ
  deriving DecidableEq

/-- Modelled from the spec: `PhysicalTrace::fix_trace` (declared at
legion_trace.h, lines 482-484; its body is not among the sources) finalizes
the template and then either appends it to `templates` (when it came out
replayable) or increments `nonreplayable_count` (and schedules the template's
deferred deletion, which has no state in this model). Returns the updated
trace together with the finalized template. -/
def PhysicalTrace.fix_trace (refines : ℕ → ℕ → Bool) (pt : PhysicalTrace)
    (t : PhysicalTemplate) (has_blocking_call : Bool) :
    PhysicalTrace × PhysicalTemplate :=
  let ft := t.finalize refines has_blocking_call
  if ft.replayable then
    ({ pt with templates := pt.templates ++ [ft] }, ft)
  else
    ({ pt with nonreplayable_count := pt.nonreplayable_count + 1 }, ft)

/-- `StaticTrace` (legion_trace.h, lines 156-200), restricted to its
`application_trees` member (line 199): the set of region tree IDs the static
trace applies to. -/
structure StaticTrace where
  application_trees : Finset ℕ
  deriving DecidableEq

/-- Modelled from the spec: `StaticTrace::handles_region_tree` (declared at
legion_trace.h, lines 173-174; its body is not among the sources) returns
true iff the tree ID is in `application_trees`, with the empty set meaning
all trees. -/
def StaticTrace.handles_region_tree (s : StaticTrace) (tid : ℕ) : Bool :=
  if s.application_trees = ∅ then true
  else decide (tid ∈ s.application_trees)

/-- The interface of `Operation` consumed by the trace core (spec, external
interfaces): an operation kind (`get_operation_kind`) and a region count
(`get_region_count`). Kinds are identity-comparable, modelled as naturals. -/
structure Operation where
  kind : ℕ
  region_count : ℕ
  deriving DecidableEq

/-- `DynamicTrace::OperationInfo` (legion_trace.h, lines 213-220): the
signature of an operation recorded at capture, built from the operation's
kind and region count. -/
structure OperationInfo where
  kind : ℕ
  count : ℕ
  deriving DecidableEq

/-- The `OperationInfo(Operation *op)` constructor (legion_trace.h,
lines 215-216): `kind = op->get_operation_kind()`,
`count = op->get_region_count()`. -/
def OperationInfo.ofOp (op : Operation) : OperationInfo :=
  { kind := op.kind, count := op.region_count }

/-- Modelled from the spec: the replay-validity check performed by
`DynamicTrace::register_operation` once the trace is fixed (the body of
`register_operation`, declared at legion_trace.h, line 245, is not among the
sources). Registration at position `i` succeeds iff the operation's kind and
region count equal the signature `op_info[i]` recorded at capture; any
mismatch rejects the trace. -/
def replay_registration_ok (op_info : List OperationInfo) (i : ℕ)
    (op : Operation) : Bool :=
  match op_info.get? i with
  | some info => (op.kind == info.kind) && (op.region_count == info.count)
  | none => false

/-! Helper lemmas shared by several claims. -/

/-- The success condition of `merge` restated positively: `merge` tests the
disjunction of the five field disagreements, which is the complement of the
conjunction of the five field agreements. -/
theorem DependenceRecord.merge_eq_ite (a b : DependenceRecord) :
    a.merge b =
      if a.operation_idx = b.operation_idx ∧ a.prev_idx = b.prev_idx ∧
         a.next_idx = b.next_idx ∧ a.validates = b.validates ∧ a.dtype = b.dtype
      then (true, { a with dependent_mask := a.dependent_mask ∪ b.dependent_mask })
      else (false, a) := by
  rw [DependenceRecord.merge]
  by_cases h : a.operation_idx = b.operation_idx ∧ a.prev_idx = b.prev_idx ∧
      a.next_idx = b.next_idx ∧ a.validates = b.validates ∧ a.dtype = b.dtype
  · have hne : ¬((a.operation_idx ≠ b.operation_idx) ∨ (a.prev_idx ≠ b.prev_idx) ∨
        (a.next_idx ≠ b.next_idx) ∨ (a.validates ≠ b.validates) ∨
        (a.dtype ≠ b.dtype)) := by
      push_neg
      exact h
    rw [if_neg hne, if_pos h]
  · have hne : (a.operation_idx ≠ b.operation_idx) ∨ (a.prev_idx ≠ b.prev_idx) ∨
        (a.next_idx ≠ b.next_idx) ∨ (a.validates ≠ b.validates) ∨
        (a.dtype ≠ b.dtype) := by
      by_contra hc
      push_neg at hc
      exact h hc
    rw [if_pos hne, if_neg h]

/-- Merging a record with itself succeeds and leaves it unchanged. -/
theorem DependenceRecord.merge_self (r : DependenceRecord) :
    r.merge r = (true, r) := by
  rw [DependenceRecord.merge_eq_ite]
  simp

/-- A successful or failed merge never changes the first five fields of the
receiver. -/
theorem DependenceRecord.merge_snd_fields (a b : DependenceRecord) :
    (a.merge b).2.operation_idx = a.operation_idx ∧
    (a.merge b).2.prev_idx = a.prev_idx ∧
    (a.merge b).2.next_idx = a.next_idx ∧
    (a.merge b).2.validates = a.validates ∧
    (a.merge b).2.dtype = a.dtype := by
  rw [DependenceRecord.merge_eq_ite]
  split <;> simp

/-- Two records are mergeable exactly when they agree on the first five
fields. -/
theorem DependenceRecord.mergeable_iff (a b : DependenceRecord) :
    a.mergeable b = true ↔
      (a.operation_idx = b.operation_idx ∧ a.prev_idx = b.prev_idx ∧
       a.next_idx = b.next_idx ∧ a.validates = b.validates ∧
       a.dtype = b.dtype) := by
  rw [DependenceRecord.mergeable, DependenceRecord.merge_eq_ite]
  split
  · rename_i h
    simpa using h
  · rename_i h
    simpa using h

/-- Mergeability against the result of a merge is mergeability against the
original record, because a merge only changes the mask. -/
theorem DependenceRecord.mergeable_merge_snd (d e r : DependenceRecord) :
    d.mergeable ((e.merge r).2) = d.mergeable e := by
  have hf := DependenceRecord.merge_snd_fields e r
  rw [Bool.eq_iff_iff, DependenceRecord.mergeable_iff,
      DependenceRecord.mergeable_iff,
      hf.1, hf.2.1, hf.2.2.1, hf.2.2.2.1, hf.2.2.2.2]

/-- If a merge succeeds, merging the same record again succeeds and is a
no-op, since mask union is idempotent. -/
theorem DependenceRecord.merge_merge_self (d r : DependenceRecord)
    (h : (d.merge r).1 = true) :
    (d.merge r).2.merge r = (true, (d.merge r).2) := by
  have hc : d.operation_idx = r.operation_idx ∧ d.prev_idx = r.prev_idx ∧
      d.next_idx = r.next_idx ∧ d.validates = r.validates ∧ d.dtype = r.dtype := by
    rw [DependenceRecord.merge_eq_ite] at h
    by_contra hcon
    rw [if_neg hcon] at h
    simp at h
  have h2 : (d.merge r).2 =
      { d with dependent_mask := d.dependent_mask ∪ r.dependent_mask } := by
    rw [DependenceRecord.merge_eq_ite, if_pos hc]
  rw [h2, DependenceRecord.merge_eq_ite, if_pos hc]
  simp [Finset.union_assoc]

/-- `insert_dependence` never returns the empty list. -/
theorem insert_dependence_ne_nil (L : List DependenceRecord)
    (r : DependenceRecord) : insert_dependence L r ≠ [] := by
  cases L with
  | nil => simp [insert_dependence]
  | cons d tail =>
    cases tail with
    | nil =>
      rw [insert_dependence]
      split <;> simp
    | cons e rest =>
      rw [insert_dependence]
      simp

/-- The head of `insert_dependence (e :: tail) r` is mergeable with exactly
the same records as `e` itself. -/
theorem insert_dependence_head (e : DependenceRecord)
    (tail : List DependenceRecord) (r : DependenceRecord) :
    ∃ (h2 : DependenceRecord) (t2 : List DependenceRecord),
      insert_dependence (e :: tail) r = h2 :: t2 ∧
      ∀ d : DependenceRecord, d.mergeable h2 = d.mergeable e := by
  cases tail with
  | nil =>
    rw [insert_dependence]
    split
    · exact ⟨_, _, rfl, fun d => DependenceRecord.mergeable_merge_snd d e r⟩
    · exact ⟨e, [r], rfl, fun d => rfl⟩
  | cons f rest =>
    rw [insert_dependence]
    exact ⟨e, _, rfl, fun d => rfl⟩

/-! Claim theorems. -/

/-- Claim C1: for every physical template whose post condition set does not
subsume its pre condition set, `check_replayable` returns false, whatever the
refinement relation between equivalence sets is. -/
theorem C1_check_replayable_requires_subsumption (refines : ℕ → ℕ → Bool)
    (t : PhysicalTemplate) (h : t.pre.subsumed_by t.post = false) :
    t.check_replayable refines = false := by
  simp [PhysicalTemplate.check_replayable, h]

/-- Claim C1 witness: a concrete template whose pre set holds a view entry
that its empty post set does not dominate is not replayable. -/
theorem C1_check_replayable_requires_subsumption_witness :
    (PhysicalTemplate.mk true false ⟨[⟨0, 0, {0}⟩]⟩ ⟨[]⟩ ⟨[]⟩ ⟨[]⟩
        ⟨[]⟩).pre.subsumed_by
      (PhysicalTemplate.mk true false ⟨[⟨0, 0, {0}⟩]⟩ ⟨[]⟩ ⟨[]⟩ ⟨[]⟩
        ⟨[]⟩).post = false ∧
    (PhysicalTemplate.mk true false ⟨[⟨0, 0, {0}⟩]⟩ ⟨[]⟩ ⟨[]⟩ ⟨[]⟩
        ⟨[]⟩).check_replayable (fun _ _ => false) = false :=
  ⟨by decide,
   C1_check_replayable_requires_subsumption (fun _ _ => false) _ (by decide)⟩

/-- Claim C4: `DependenceRecord::merge` succeeds exactly when the two records
agree on `operation_idx`, `prev_idx`, `next_idx`, `validates` and `dtype`; on
success the receiver keeps those five fields and its mask becomes the union
of the two masks, and on failure the receiver is unchanged. -/
theorem C4_merge_characterization (a b : DependenceRecord) :
    a.merge b =
      if a.operation_idx = b.operation_idx ∧ a.prev_idx = b.prev_idx ∧
         a.next_idx = b.next_idx ∧ a.validates = b.validates ∧
         a.dtype = b.dtype
      then (true, { a with dependent_mask := a.dependent_mask ∪ b.dependent_mask })
      else (false, a) :=
  DependenceRecord.merge_eq_ite a b

/-- Claim C7: finalizing any template with `has_blocking_call = true` through
`fix_trace` marks it non-replayable, leaves the trace's `templates` vector
unchanged, and increments `nonreplayable_count` by one. -/
theorem C7_blocking_call_not_stored (refines : ℕ → ℕ → Bool)
    (pt : PhysicalTrace) (t : PhysicalTemplate) :
    (pt.fix_trace refines t true).2.replayable = false ∧
    (pt.fix_trace refines t true).1.templates = pt.templates ∧
    (pt.fix_trace refines t true).1.nonreplayable_count =
      pt.nonreplayable_count + 1 := by
  simp [PhysicalTrace.fix_trace, PhysicalTemplate.finalize]

/-- Claim C8: `StaticTrace::handles_region_tree` accepts a tree ID exactly
when the ID is in `application_trees` or that set is empty. -/
theorem C8_handles_region_tree_iff (s : StaticTrace) (tid : ℕ) :
    s.handles_region_tree tid = true ↔
      s.application_trees = ∅ ∨ tid ∈ s.application_trees := by
  rw [StaticTrace.handles_region_tree]
  by_cases h : s.application_trees = ∅ <;> simp [h]

/-- Claim C9: in every state, `is_replaying` is the negation of
`is_recording` and conversely, so a template reports exactly one of the two
modes. -/
theorem C9_recording_replaying_complement (t : PhysicalTemplate) :
    t.is_replaying = !t.is_recording ∧ t.is_recording = !t.is_replaying := by
  cases t
  simp [PhysicalTemplate.is_recording, PhysicalTemplate.is_replaying]

/-- Claim C10: the single-argument `DependenceRecord` constructor produces a
whole-operation record: `prev_idx = -1`, `next_idx = -1`,
`validates = false`, `dtype = TRUE_DEPENDENCE`, and an empty mask. -/
theorem C10_single_arg_constructor (idx : Int) :
    (DependenceRecord.ofIdx idx).operation_idx = idx ∧
    (DependenceRecord.ofIdx idx).prev_idx = -1 ∧
    (DependenceRecord.ofIdx idx).next_idx = -1 ∧
    (DependenceRecord.ofIdx idx).validates = false ∧
    (DependenceRecord.ofIdx idx).dtype = DependenceType.TRUE_DEPENDENCE ∧
    (DependenceRecord.ofIdx idx).dependent_mask = ∅ :=
  ⟨rfl, rfl, rfl, rfl, rfl, rfl⟩

/-- Claim C2: on a fixed dynamic trace whose per-position signatures were
recorded at capture from the captured operations, registering an operation at
position `i` during replay succeeds exactly when its kind and region count
equal those of the operation captured at position `i`. -/
theorem C2_replay_registration_signature (capture_ops : List Operation)
    (i : ℕ) (op : Operation) (h : i < capture_ops.length) :
    replay_registration_ok (capture_ops.map OperationInfo.ofOp) i op = true ↔
      (op.kind = (capture_ops.get ⟨i, h⟩).kind ∧
       op.region_count = (capture_ops.get ⟨i, h⟩).region_count) := by
  have hm : (capture_ops.map OperationInfo.ofOp).get? i =
      some (OperationInfo.ofOp (capture_ops.get ⟨i, h⟩)) := by
    rw [List.get?_eq_getElem?, List.getElem?_map, List.getElem?_eq_getElem h]
    rfl
  simp only [replay_registration_ok, hm]
  simp [OperationInfo.ofOp]

/-- Claim C2 witness: replaying the operation with kind 1 and two regions at
position 0 of a capture whose position 0 holds that same signature. -/
theorem C2_replay_registration_signature_witness :
    0 < [Operation.mk 1 2].length ∧
    (replay_registration_ok ([Operation.mk 1 2].map OperationInfo.ofOp) 0
        (Operation.mk 1 2) = true ↔
      ((Operation.mk 1 2).kind =
          ([Operation.mk 1 2].get ⟨0, by decide⟩).kind ∧
       (Operation.mk 1 2).region_count =
          ([Operation.mk 1 2].get ⟨0, by decide⟩).region_count)) :=
  ⟨by decide,
   C2_replay_registration_signature [Operation.mk 1 2] 0 (Operation.mk 1 2)
     (by decide)⟩

/-- Inserting a record into a list with no adjacent mergeable pair preserves
that property: the merged-or-appended last element cannot become mergeable
with its predecessor. -/
theorem no_adjacent_insert (L : List DependenceRecord) (r : DependenceRecord) :
    no_adjacent_mergeable L = true →
    no_adjacent_mergeable (insert_dependence L r) = true := by
  induction L with
  | nil =>
    intro _
    simp [insert_dependence, no_adjacent_mergeable]
  | cons d tail ih =>
    cases tail with
    | nil =>
      intro _
      cases hm : (d.merge r).1 with
      | false =>
        simp [insert_dependence, hm, no_adjacent_mergeable,
              DependenceRecord.mergeable]
      | true =>
        simp [insert_dependence, hm, no_adjacent_mergeable]
    | cons e rest =>
      intro h
      rw [no_adjacent_mergeable, Bool.and_eq_true] at h
      obtain ⟨hde, hrest⟩ := h
      obtain ⟨h2, t2, heq, hmerg⟩ := insert_dependence_head e rest r
      rw [insert_dependence, heq, no_adjacent_mergeable, Bool.and_eq_true]
      constructor
      · rw [hmerg d]
        exact hde
      · rw [← heq]
        exact ih hrest

/-- Any sequence of insertions starting from a list with no adjacent
mergeable pair keeps that property. -/
theorem no_adjacent_foldl (rs L : List DependenceRecord)
    (h : no_adjacent_mergeable L = true) :
    no_adjacent_mergeable (rs.foldl insert_dependence L) = true := by
  induction rs generalizing L with
  | nil => simpa using h
  | cons r rest ih => exact ih _ (no_adjacent_insert _ r h)

/-- Claim C3 counterexample: `insert_dependence` only tries to merge with the
last record, so inserting records shaped A, B, A leaves two mergeable
A-shaped records in the list. Concretely, after inserting the whole-op true
dependence on operation 0 with mask {0}, then one on operation 1, then one on
operation 0 with mask {1}, the list contains two mergeable records. -/
theorem C3_counterexample_mergeable_pair_survives :
    no_mergeable_pair
      (insert_dependence (insert_dependence (insert_dependence []
        (DependenceRecord.mk 0 (-1) (-1) false
          DependenceType.TRUE_DEPENDENCE {0}))
        (DependenceRecord.mk 1 (-1) (-1) false
          DependenceType.TRUE_DEPENDENCE {0}))
        (DependenceRecord.mk 0 (-1) (-1) false
          DependenceType.TRUE_DEPENDENCE {1})) = false := by
  decide

/-- Claim C3 as amended: after any sequence of `insert_dependence` calls
starting from the empty list, no two CONSECUTIVE records of the resulting
list are mergeable with each other (the merge is only ever attempted against
the last element, so non-adjacent mergeable records can coexist). -/
theorem C3_amended_no_adjacent_mergeable (rs : List DependenceRecord) :
    no_adjacent_mergeable (rs.foldl insert_dependence []) = true :=
  no_adjacent_foldl rs [] rfl

/-- Claim C5: merging a record into a list is idempotent; the second
insertion merges into the record produced or appended by the first and mask
union is idempotent. -/
theorem C5_insert_dependence_idempotent (L : List DependenceRecord)
    (r : DependenceRecord) :
    insert_dependence (insert_dependence L r) r = insert_dependence L r := by
  induction L with
  | nil =>
    simp [insert_dependence, DependenceRecord.merge_self]
  | cons d tail ih =>
    cases tail with
    | nil =>
      cases hm : (d.merge r).1 with
      | false =>
        have h1 : insert_dependence [d] r = [d, r] := by
          simp [insert_dependence, hm]
        have h2 : insert_dependence [r] r = [r] := by
          simp [insert_dependence, DependenceRecord.merge_self]
        rw [h1, insert_dependence, h2]
      | true =>
        have h1 : insert_dependence [d] r = [(d.merge r).2] := by
          simp [insert_dependence, hm]
        rw [h1]
        simp [insert_dependence, DependenceRecord.merge_merge_self d r hm]
    | cons e rest =>
      rw [insert_dependence]
      obtain ⟨y, ys, hy⟩ : ∃ y ys, insert_dependence (e :: rest) r = y :: ys := by
        rcases hne : insert_dependence (e :: rest) r with _ | ⟨y, ys⟩
        · exact absurd hne (insert_dependence_ne_nil _ _)
        · exact ⟨y, ys, rfl⟩
      rw [hy, insert_dependence, ← hy, ih]

/-- The masks looked up for any key of a set are covered by the other set's
masks for that key whenever every entry of the first set is dominated by the
other set. -/
theorem lookup_subset_of_all (cs : List ViewEntry) (t : TraceViewSet)
    (h : cs.all (fun ent => t.dominates ent.view ent.eq ent.mask) = true)
    (v e : ℕ) :
    lookupMask cs v e ⊆ lookupMask t.conditions v e := by
  induction cs with
  | nil => simp [lookupMask]
  | cons ent rest ih =>
    rw [List.all_cons, Bool.and_eq_true] at h
    obtain ⟨h1, h2⟩ := h
    rw [lookupMask]
    apply Finset.union_subset
    · by_cases hc : ent.view = v ∧ ent.eq = e
      · rw [if_pos hc]
        rw [TraceViewSet.dominates, decide_eq_true_eq] at h1
        rw [← hc.1, ← hc.2]
        exact h1
      · rw [if_neg hc]
        exact Finset.empty_subset _
    · exact ih h2

/-- Claim C6: two view sets that subsume each other agree on the result of
`dominates` for every view, equivalence set and field mask, because mutual
subsumption forces the effective masks of every key to coincide. -/
theorem C6_subsumption_round_trip (s1 s2 : TraceViewSet)
    (h12 : s1.subsumed_by s2 = true) (h21 : s2.subsumed_by s1 = true)
    (v e : ℕ) (m : FieldMask) :
    s1.dominates v e m = s2.dominates v e m := by
  rw [TraceViewSet.subsumed_by] at h12 h21
  have hl : lookupMask s1.conditions v e = lookupMask s2.conditions v e :=
    Finset.Subset.antisymm (lookup_subset_of_all _ _ h12 v e)
      (lookup_subset_of_all _ _ h21 v e)
  rw [TraceViewSet.dominates, TraceViewSet.dominates, hl]

/-- Claim C6 witness: a singleton view set and a set carrying the same entry
twice subsume each other and agree on a sample `dominates` query. -/
theorem C6_subsumption_round_trip_witness :
    (TraceViewSet.mk [⟨0, 0, {0}⟩]).subsumed_by
      (TraceViewSet.mk [⟨0, 0, {0}⟩, ⟨0, 0, {0}⟩]) = true ∧
    (TraceViewSet.mk [⟨0, 0, {0}⟩, ⟨0, 0, {0}⟩]).subsumed_by
      (TraceViewSet.mk [⟨0, 0, {0}⟩]) = true ∧
    (TraceViewSet.mk [⟨0, 0, {0}⟩]).dominates 0 0 {0} =
      (TraceViewSet.mk [⟨0, 0, {0}⟩, ⟨0, 0, {0}⟩]).dominates 0 0 {0} :=
  ⟨by decide, by decide,
   C6_subsumption_round_trip _ _ (by decide) (by decide) 0 0 {0}⟩

end LegionTraceModel
